import Mathlib

/-!
Verification of the DirHash directory-hashing program (src/DirHash.cpp).

The development shallowly embeds the program: paths are Lean strings (one
entry per UTF-16 code unit, assuming BMP text as the program does), file
bytes are lists of naturals below 256, the filesystem is an inductive tree
that also records the two failure modes the program distinguishes (a file
that cannot be opened, a directory whose enumeration fails), and the hash
primitive is kept abstract: since the program only ever feeds bytes to
`update` in a fixed order and reads the digest once at the end, the digest
is an abstract function of the concatenated update stream.

External platform routines used by the program (PathMatchSpec,
PathCanonicalize, StringCchLength, _wcsicmp, PathFindFileName) are modelled
from their documented contracts, as noted at each definition.
-/

/-- MAX_PATH, the Windows path-length constant used throughout DirHash.cpp. -/
def MAX_PATH : Nat := 260

/-- Case-folded numeric view of a string: the `towlower` value of each
character, as used by `_wcsicmp` and `PathMatchSpec` (both case-insensitive).
Lean's `Char.toLower` folds ASCII letters, matching the C locale. -/
def low (s : String) : List Nat := s.data.map (fun c => (Char.toLower c).toNat)

/-- Three-way lexicographic comparison of code-unit lists; with `low` this
models `_wcsicmp` (DirHash.cpp line 47): negative / zero / positive becomes
`.lt` / `.eq` / `.gt`. -/
def cmpL : List Nat → List Nat → Ordering
  | [], [] => .eq
  | [], _ :: _ => .lt
  | _ :: _, [] => .gt
  | a :: as, b :: bs => if a < b then .lt else if b < a then .gt else cmpL as bs

/-- compare_nocase (DirHash.cpp lines 45-48): `_wcsicmp(first, second) < 0`,
the strict-weak-order comparator used to sort directory contents. -/
def compare_nocase (first second : String) : Bool :=
  cmpL (low first) (low second) == .lt

/-- Shell-style wildcard matching over case-folded code-unit lists:
`*` (42) matches any sequence, `?` (63) matches exactly one unit, anything
else matches itself. This is the match relation of `PathMatchSpecW`
restricted to a single spec (the program never passes `;`-separated specs). -/
def glob (p t : List Nat) : Bool :=
  match p, t with
  | [], t => t.isEmpty
  | 42 :: ps, [] => glob ps []
  | _ :: _, [] => false
  | 42 :: ps, c :: ts => glob ps (c :: ts) || glob (42 :: ps) ts
  | 63 :: ps, _ :: ts => glob ps ts
  | p₀ :: ps, c :: ts => p₀ == c && glob ps ts
termination_by (p.length, t.length)

/-- PathMatchSpec(pszFile, pszSpec), modelled from its documented contract:
a case-insensitive wildcard match of the spec against the WHOLE string it is
given (the routine does not extract the file name from a path by itself). -/
def PathMatchSpec (pszFile pszSpec : String) : Bool :=
  glob (low pszSpec) (low pszFile)

/-- IsExcludedName (DirHash.cpp lines 198-207): true iff some spec in the
exclusion list matches the given string. The callers pass the FULL path of
the entry, not its base name. -/
def IsExcludedName (szName : String) (excludeSpecList : List String) : Bool :=
  excludeSpecList.any (fun spec => PathMatchSpec szName spec)

/-- PathFindFileName, modelled from its contract: the last path component,
i.e. everything after the last `\` or `/` separator. -/
def pathFindFileName (s : String) : String :=
  String.mk (s.data.foldl (fun acc c => if c = '\\' ∨ c = '/' then [] else acc ++ [c]) [])

/-- Path construction of CDirContent (DirHash.cpp lines 181-189): a trailing
`/` of the parent is first rewritten to `\`; then, whenever the parent does
not already end in `\`, a `\` is appended (note the second test reads the
ORIGINAL parent, so a parent ending in `/` yields a double backslash, as in
the source); finally the child name is appended. -/
def joinPath (szPath szName : String) : String :=
  let p := szPath.data
  let p1 := if p.getLast? = some '/' then p.dropLast ++ ['\\'] else p
  let p2 := if p.getLast? ≠ some '\\' then p1 ++ ['\\'] else p1
  String.mk (p2 ++ szName.data)

/-- Trailing-separator removal applied by _tmain to a directory argument
(DirHash.cpp lines 475-481). -/
def stripTrail (s : String) : String :=
  match s.data.getLast? with
  | some c => if c = '\\' ∨ c = '/' then String.mk s.data.dropLast else s
  | none => s

/-- UTF-16LE bytes of one code unit, as produced by hashing
`(LPBYTE) sz, _tcslen(sz) * sizeof(TCHAR)` (BMP characters assumed). -/
def charBytes (c : Char) : List Nat := [c.toNat % 256, c.toNat / 256 % 256]

/-- UTF-16LE byte serialization of a whole string. -/
def strBytes (s : String) : List Nat := (s.data.map charBytes).flatten

/-- DWORD value of the `-1` error code HashFile stores on fopen failure
(DirHash.cpp line 243). -/
def FILE_OPEN_ERROR : Nat := 4294967295

-- -----------------------------------------------------------------
-- Filesystem model and the tree-hashing engine
-- -----------------------------------------------------------------

/-- One node of the filesystem tree. `file` is a readable file with its
bytes; `badFile` is a file whose fopen fails; `dir` is a directory with its
children in filesystem-enumeration order; `badDir` is a directory whose
enumeration (FindFirstFile / FindNextFile) fails with the given OS error. -/
inductive FsNode where
  | file (content : List Nat)
  | badFile
  | dir (children : List (String × FsNode))
  | badDir (code : Nat)

/-- True for nodes that the FILE_ATTRIBUTE_DIRECTORY test classifies as
directories. -/
def isDirNode : FsNode → Bool
  | .dir _ => true
  | .badDir _ => true
  | _ => false

/-- The run configuration handed down through the recursion: the
-hashnames flag, the exclusion list, and the external PathCanonicalize
routine (`none` models a FALSE return, i.e. canonicalization failure). -/
structure Config where
  includeNames : Bool
  excludeSpecList : List String
  canonicalize : String → Option String

/-- The common guard of HashFile (line 215) and HashDirectory (line 257):
the entry is skipped iff its path fits in MAX_PATH, the exclusion list is
non-empty, and IsExcludedName accepts the full path. -/
def pathExcluded (cfg : Config) (path : String) : Bool :=
  decide (path.length ≤ MAX_PATH) && !cfg.excludeSpecList.isEmpty &&
    IsExcludedName path cfg.excludeSpecList

/-- Name bytes folded into the hash when -hashnames is active (DirHash.cpp
lines 218-229 and 260-271): the raw path text for paths longer than
MAX_PATH, otherwise the PathCanonicalize output, falling back to the raw
path text when canonicalization fails. -/
def nameFoldBytes (cfg : Config) (path : String) : List Nat :=
  if MAX_PATH < path.length then strBytes path
  else
    match cfg.canonicalize path with
    | some canon => strBytes canon
    | none => strBytes path

/-- Enumeration filter of HashDirectory (lines 289-301): directory entries
named `.` or `..` are skipped; files are always listed. -/
def keepEntry (p : String × FsNode) : Bool :=
  if isDirNode p.2 then !(p.1 == "." || p.1 == "..") else true

/-- Insertion into a list already sorted by compare_nocase, placing the new
entry before the first entry not strictly below it. -/
def insSorted {α : Type} (x : String × α) : List (String × α) → List (String × α)
  | [] => [x]
  | y :: l => if compare_nocase y.1 x.1 then y :: insSorted x l else x :: y :: l

/-- The stable sort `dirContent.sort(compare_nocase)` (DirHash.cpp line 317):
entries ordered by case-insensitive comparison of their full path strings. -/
def sortByPath {α : Type} (l : List (String × α)) : List (String × α) :=
  l.foldr insSorted []

/-- The visiting loop of HashDirectory (lines 319-333) applied to the
per-child results in sorted order: the update streams are concatenated into
the shared hash state and the loop breaks at the first non-zero error. -/
def foldResults : List (String × (List Nat × Nat)) → List Nat × Nat
  | [] => ([], 0)
  | (_, (u, e)) :: rest =>
    if e ≠ 0 then (u, e)
    else
      let r := foldResults rest
      (u ++ r.1, r.2)

/-- The recursive engine: HashFile (lines 209-246) for file nodes and
HashDirectory (lines 248-336) for directory nodes. The result is the
sequence of bytes fed to the shared hash state by this call, paired with
the DWORD error it returns. Since hashing is pure, the model computes each
child result where the source first sorts and then recurses; the sorted
visiting order and the first-error break are applied by `foldResults` on
the sorted result list, which agrees with the source by purity. -/
def hashPath (cfg : Config) (path : String) : FsNode → List Nat × Nat
  | .file content =>
    if pathExcluded cfg path then ([], 0)
    else
      let nameB := if cfg.includeNames then nameFoldBytes cfg path else []
      (nameB ++ content, 0)
  | .badFile =>
    if pathExcluded cfg path then ([], 0)
    else
      let nameB := if cfg.includeNames then nameFoldBytes cfg path else []
      (nameB, FILE_OPEN_ERROR)
  | .badDir code =>
    if pathExcluded cfg path then ([], 0)
    else
      let nameB := if cfg.includeNames then nameFoldBytes cfg path else []
      (nameB, code)
  | .dir children =>
    if pathExcluded cfg path then ([], 0)
    else
      let nameB := if cfg.includeNames then nameFoldBytes cfg path else []
      let r := foldResults (sortByPath ((children.filter keepEntry).attach.map
        (fun x => (joinPath path x.1.1, hashPath cfg (joinPath path x.1.1) x.1.2))))
      (nameB ++ r.1, r.2)
decreasing_by
  have h1 : x.1 ∈ children := List.mem_of_mem_filter x.2
  have h2 := List.sizeOf_lt_of_mem h1
  rcases x with ⟨⟨n, c⟩, hx⟩
  simp at h2 ⊢
  omega

/-- The per-child result list of a directory, written without `attach`. -/
def dirItems (cfg : Config) (path : String) (children : List (String × FsNode)) :
    List (String × (List Nat × Nat)) :=
  (children.filter keepEntry).map
    (fun nc => (joinPath path nc.1, hashPath cfg (joinPath path nc.1) nc.2))

/-- Digest finalization as performed by _tmain (lines 492-494): the digest
is read out of the abstract hash primitive `H` only when the whole run
returned no error. -/
def digestOf (H : List Nat → List Nat) (r : List Nat × Nat) : Option (List Nat) :=
  if r.2 = 0 then some (H r.1) else none

/-- Well-formed failure-free trees: every node is a readable file or an
enumerable directory, and no entry is named `.` or `..` (the filesystem
never reports such names as real children). -/
inductive WfTree : FsNode → Prop where
  | file (content : List Nat) : WfTree (.file content)
  | dir (children : List (String × FsNode))
      (hnames : ∀ p ∈ children, p.1 ≠ "." ∧ p.1 ≠ "..")
      (hch : ∀ p ∈ children, WfTree p.2) :
      WfTree (.dir children)

/-- Reference traversal written from the spec's words (section 8,
end-to-end scenario): the concatenation of the byte contents of all files
in depth-first traversal order, children taken in case-insensitive
lexicographic order of their full path strings. Compared against the
engine in the claim about name-free digests. -/
def specFilesConcat (path : String) : FsNode → List Nat
  | .file content => content
  | .badFile => []
  | .badDir _ => []
  | .dir children =>
    ((sortByPath (children.attach.map
        (fun x => (joinPath path x.1.1, specFilesConcat (joinPath path x.1.1) x.1.2)))).map
      (fun pc => pc.2)).flatten
decreasing_by
  have h2 := List.sizeOf_lt_of_mem x.2
  rcases x with ⟨⟨n, c⟩, hx⟩
  simp at h2 ⊢
  omega

-- -----------------------------------------------------------------
-- The _tmain driver (DirHash.cpp lines 353-517)
-- -----------------------------------------------------------------

/-- The five hash algorithms of the Hash class hierarchy
(DirHash.cpp lines 52-146). -/
inductive Algo where
  | MD5
  | SHA1
  | SHA256
  | SHA384
  | SHA512
deriving DecidableEq

/-- GetID of each algorithm (lines 76, 93, 110, 127, 144). -/
def Algo.idStr : Algo → String
  | .MD5 => "MD5"
  | .SHA1 => "SHA1"
  | .SHA256 => "SHA256"
  | .SHA384 => "SHA384"
  | .SHA512 => "SHA512"

/-- GetHashSize of each algorithm, in bytes (lines 77, 94, 111, 128, 145). -/
def Algo.hashSize : Algo → Nat
  | .MD5 => 16
  | .SHA1 => 20
  | .SHA256 => 32
  | .SHA384 => 48
  | .SHA512 => 64

/-- Case-insensitive string equality, `_tcsicmp(a, b) == 0`. -/
def eqNoCase (a b : String) : Bool := low a == low b

/-- Hash::GetHash (DirHash.cpp lines 148-171) on a non-null identifier. -/
def GetHash (szHashId : String) : Option Algo :=
  if eqNoCase szHashId "SHA1" then some .SHA1
  else if eqNoCase szHashId "SHA256" then some .SHA256
  else if eqNoCase szHashId "SHA384" then some .SHA384
  else if eqNoCase szHashId "SHA512" then some .SHA512
  else if eqNoCase szHashId "MD5" then some .MD5
  else none

/-- StringCchLength(psz, cchMax, &len), modelled from the strsafe contract:
the length is reported when a terminator occurs within cchMax characters
(length below cchMax); on failure the reported length is 0. -/
def stringCchLength (s : String) (cchMax : Nat) : Nat :=
  if s.length < cchMax then s.length else 0

/-- Interpretation of a DWORD as the int value _tmain returns (line 516). -/
def toInt32 (n : Nat) : Int :=
  if n % 4294967296 < 2147483648 then ((n % 4294967296 : Nat) : Int)
  else ((n % 4294967296 : Nat) : Int) - 4294967296

/-- One uppercase hex digit. -/
def hexDigitChar (n : Nat) : Char :=
  Char.ofNat (if n < 10 then 48 + n else 55 + n)

/-- Two uppercase hex digits of one byte, printf `%.2X` for values
below 256. -/
def hexByte (b : Nat) : String :=
  String.mk [hexDigitChar (b / 16 % 16), hexDigitChar (b % 16)]

/-- The hex rendering loop of _tmain (lines 503-507): each digest byte
appended as two uppercase hex digits. -/
def hexStr (l : List Nat) : String := l.foldl (fun acc b => acc ++ hexByte b) ""

/-- The environment of one program run: the filesystem (what each path
resolves to), the PathCanonicalize routine, which result files can be
opened for append, and the abstract hash primitives (digest of a full
update stream for each algorithm). -/
structure Env where
  fs : String → Option FsNode
  canonicalize : String → Option String
  outOpenOk : String → Bool
  Hmap : Algo → List Nat → List Nat

/-- Mutable option state of the argument loop (lines 359-363). -/
structure Opts where
  outFile : Option String
  dontWait : Bool
  includeNames : Bool
  excludeSpecList : List String
  algo : Option Algo

/-- Initial option state. -/
def initOpts : Opts := ⟨none, false, false, [], none⟩

/-- The argument loop of _tmain (lines 378-439) over argv[2..]. `none`
models the usage-error exits returning 1: a missing `-t` or `-exclude`
argument, a result file that cannot be opened, or an unrecognized
algorithm token. -/
def parseOpts (env : Env) : List String → Opts → Option Opts
  | [], o => some o
  | a :: rest, o =>
    if a = "-t" then
      match rest with
      | [] => none
      | f :: rest' =>
        if env.outOpenOk f then parseOpts env rest' ⟨some f, o.dontWait, o.includeNames, o.excludeSpecList, o.algo⟩ else none
    else if a = "-nowait" then parseOpts env rest ⟨o.outFile, true, o.includeNames, o.excludeSpecList, o.algo⟩
    else if a = "-hashnames" then parseOpts env rest ⟨o.outFile, o.dontWait, true, o.excludeSpecList, o.algo⟩
    else if a = "-exclude" then
      match rest with
      | [] => none
      | p :: rest' => parseOpts env rest' ⟨o.outFile, o.dontWait, o.includeNames, o.excludeSpecList ++ [p], o.algo⟩
    else
      match GetHash a with
      | some h => parseOpts env rest ⟨o.outFile, o.dontWait, o.includeNames, o.excludeSpecList, some h⟩
      | none => none

/-- Observable outcome of one run: the process exit status, the result
line written to standard output, and the result line appended to the
result file (when one was requested), each `none` when not produced. -/
structure MainResult where
  exitCode : Int
  stdoutLine : Option String
  fileLine : Option String

/-- The _tmain driver (DirHash.cpp lines 353-517) on argv[1..]: parse the
options, reject a too-long input path (exit -1) and a nonexistent one
(exit -2), strip a trailing separator from a directory argument, run the
engine, and on a zero error finalize the digest and print
`ALGO (N bytes) = HEX` to standard output and
`ALGO hash of "name" (N bytes) = HEX` to the result file. -/
def tmain (env : Env) (args : List String) : MainResult :=
  match args with
  | [] => ⟨1, none, none⟩
  | path :: rest =>
    match parseOpts env rest initOpts with
    | none => ⟨1, none, none⟩
    | some o =>
      let algo := o.algo.getD Algo.SHA1
      if stringCchLength path MAX_PATH > MAX_PATH - 3 then ⟨-1, none, none⟩
      else
        match env.fs path with
        | none => ⟨-2, none, none⟩
        | some node =>
          let cfg : Config := ⟨o.includeNames, o.excludeSpecList, env.canonicalize⟩
          let run :=
            if isDirNode node then hashPath cfg (stripTrail path) node
            else hashPath cfg path node
          if run.2 = 0 then
            let hx := hexStr (env.Hmap algo run.1)
            let line1 := algo.idStr ++ " (" ++ toString algo.hashSize ++ " bytes) = " ++ hx ++ "\n"
            let line2 := algo.idStr ++ " hash of \"" ++ pathFindFileName path ++ "\" (" ++
              toString algo.hashSize ++ " bytes) = " ++ hx ++ "\n"
            ⟨0, some line1, if o.outFile.isSome then some line2 else none⟩
          else ⟨toInt32 run.2, none, none⟩

-- -----------------------------------------------------------------

-- -----------------------------------------------------------------
-- Concrete fixtures used by witnesses and counterexamples
-- -----------------------------------------------------------------

/-- The sixteen characters printf %X may produce. -/
def hexDigits : List Char :=
  ['0', '1', '2', '3', '4', '5', '6', '7', '8', '9', 'A', 'B', 'C', 'D', 'E', 'F']

/-- A configuration with no name folding and no exclusions. -/
def cfgPlain : Config := ⟨false, [], fun p => some p⟩

/-- An environment with an empty filesystem. -/
def envX : Env :=
  ⟨fun _ => none, fun p => some p, fun _ => true, fun a _ => List.replicate a.hashSize 0⟩

/-- An environment whose filesystem holds one empty file at path f. -/
def envY : Env :=
  ⟨fun p => if p = "f" then some (.file []) else none, fun p => some p, fun _ => true,
    fun a _ => List.replicate a.hashSize 0⟩

/-- An environment whose filesystem holds one directory at path d. -/
def envZ : Env :=
  ⟨fun p => if p = "d" then some (.dir [("x.txt", .file [1])]) else none, fun p => some p,
    fun _ => true, fun a _ => List.replicate a.hashSize 0⟩

/-- A path of n letters. -/
def pathLong (n : Nat) : String := String.mk (List.replicate n 'a')

/-- The end-to-end tree of the spec: a.txt holding "hello" and sub/b.txt
holding "world" (ASCII bytes). -/
def treeHW : FsNode :=
  .dir [("a.txt", .file [104, 101, 108, 108, 111]),
        ("sub", .dir [("b.txt", .file [119, 111, 114, 108, 100])])]

-- -----------------------------------------------------------------
-- Unfolding equations for the engine
-- -----------------------------------------------------------------

theorem hashPath_file (cfg : Config) (path : String) (content : List Nat) :
    hashPath cfg path (.file content) =
      if pathExcluded cfg path then ([], 0)
      else ((if cfg.includeNames then nameFoldBytes cfg path else []) ++ content, 0) := by
  rw [hashPath]

theorem hashPath_badFile (cfg : Config) (path : String) :
    hashPath cfg path .badFile =
      if pathExcluded cfg path then ([], 0)
      else ((if cfg.includeNames then nameFoldBytes cfg path else []), FILE_OPEN_ERROR) := by
  rw [hashPath]

theorem hashPath_badDir (cfg : Config) (path : String) (code : Nat) :
    hashPath cfg path (.badDir code) =
      if pathExcluded cfg path then ([], 0)
      else ((if cfg.includeNames then nameFoldBytes cfg path else []), code) := by
  rw [hashPath]

theorem hashPath_dir (cfg : Config) (path : String) (children : List (String × FsNode)) :
    hashPath cfg path (.dir children) =
      if pathExcluded cfg path then ([], 0)
      else
        let nameB := if cfg.includeNames then nameFoldBytes cfg path else []
        let r := foldResults (sortByPath (dirItems cfg path children))
        (nameB ++ r.1, r.2) := by
  rw [hashPath, dirItems,
    List.attach_map_coe (List.filter keepEntry children)
      (fun nc => (joinPath path nc.1, hashPath cfg (joinPath path nc.1) nc.2))]

theorem specFilesConcat_dir (path : String) (children : List (String × FsNode)) :
    specFilesConcat path (.dir children) =
      ((sortByPath (children.map
          (fun nc => (joinPath path nc.1, specFilesConcat (joinPath path nc.1) nc.2)))).map
        (fun pc => pc.2)).flatten := by
  rw [specFilesConcat,
    List.attach_map_coe children
      (fun nc => (joinPath path nc.1, specFilesConcat (joinPath path nc.1) nc.2))]

-- Properties of the comparator, the sort and the visiting loop
-- -----------------------------------------------------------------

theorem cmpL_swap : ∀ (a b : List Nat), cmpL b a = (cmpL a b).swap
  | [], [] => rfl
  | [], _ :: _ => rfl
  | _ :: _, [] => rfl
  | a :: as, b :: bs => by
    simp only [cmpL]
    by_cases h1 : a < b
    · rw [if_pos h1, if_neg (Nat.lt_asymm h1), if_pos h1]
      rfl
    · by_cases h2 : b < a
      · rw [if_neg h1, if_pos h2, if_neg h1, if_pos h2]
        rfl
      · rw [if_neg h1, if_neg h2, if_neg h2, if_neg h1]
        exact cmpL_swap as bs

theorem cmpL_eq_iff : ∀ (a b : List Nat), cmpL a b = .eq ↔ a = b
  | [], [] => by simp [cmpL]
  | [], _ :: _ => by simp [cmpL]
  | _ :: _, [] => by simp [cmpL]
  | a :: as, b :: bs => by
    simp only [cmpL, List.cons.injEq]
    by_cases h1 : a < b
    · rw [if_pos h1]
      constructor
      · intro hx
        exact absurd hx (by decide)
      · rintro ⟨rfl, -⟩
        exact absurd h1 (Nat.lt_irrefl _)
    · by_cases h2 : b < a
      · rw [if_neg h1, if_pos h2]
        constructor
        · intro hx
          exact absurd hx (by decide)
        · rintro ⟨rfl, -⟩
          exact absurd h2 (Nat.lt_irrefl _)
      · have hab : a = b := by omega
        subst hab
        rw [if_neg h1, if_neg h2]
        simp [cmpL_eq_iff as bs]

theorem cmpL_lt_trans : ∀ (a b c : List Nat),
    cmpL a b = .lt → cmpL b c = .lt → cmpL a c = .lt
  | [], [], _, h1, _ => by simp [cmpL] at h1
  | [], _ :: _, [], _, h2 => by simp [cmpL] at h2
  | [], _ :: _, _ :: _, _, _ => by simp [cmpL]
  | _ :: _, [], _, h1, _ => by simp [cmpL] at h1
  | _ :: _, _ :: _, [], _, h2 => by simp [cmpL] at h2
  | a :: as, b :: bs, c :: cs, h1, h2 => by
    simp only [cmpL] at h1 h2 ⊢
    by_cases hab : a < b
    · by_cases hbc : b < c
      · rw [if_pos (by omega : a < c)]
      · by_cases hcb : c < b
        · rw [if_neg hbc, if_pos hcb] at h2
          exact absurd h2 (by decide)
        · have : b = c := by omega
          subst this
          rw [if_pos hab]
    · by_cases hba : b < a
      · rw [if_neg hab, if_pos hba] at h1
        exact absurd h1 (by decide)
      · have : a = b := by omega
        subst this
        rw [if_neg hab, if_neg hba] at h1
        by_cases hac : a < c
        · rw [if_pos hac]
        · by_cases hca : c < a
          · rw [if_neg hac, if_pos hca] at h2
            exact absurd h2 (by decide)
          · have : a = c := by omega
            subst this
            rw [if_neg hac, if_neg hca] at h2 ⊢
            exact cmpL_lt_trans as bs cs h1 h2

theorem compare_nocase_iff {a b : String} :
    compare_nocase a b = true ↔ cmpL (low a) (low b) = .lt := by
  show (cmpL (low a) (low b) == .lt) = true ↔ cmpL (low a) (low b) = .lt
  rcases h : cmpL (low a) (low b) <;> simp_all <;> decide

theorem compare_nocase_false_iff {a b : String} :
    compare_nocase a b = false ↔ cmpL (low a) (low b) ≠ .lt := by
  show (cmpL (low a) (low b) == .lt) = false ↔ cmpL (low a) (low b) ≠ .lt
  rcases h : cmpL (low a) (low b) <;> simp_all <;> decide

theorem compare_nocase_asymm {a b : String} (h : compare_nocase a b = true) :
    compare_nocase b a = false := by
  rw [compare_nocase_iff] at h
  rw [compare_nocase_false_iff, cmpL_swap (low a) (low b), h]
  decide

theorem compare_nocase_trans {a b c : String} (h1 : compare_nocase a b = true)
    (h2 : compare_nocase b c = true) : compare_nocase a c = true := by
  rw [compare_nocase_iff] at h1 h2 ⊢
  exact cmpL_lt_trans _ _ _ h1 h2

theorem compare_nocase_ge_trans {a b c : String} (h1 : compare_nocase b a = false)
    (h2 : compare_nocase c b = false) : compare_nocase c a = false := by
  rw [compare_nocase_false_iff] at h1 h2 ⊢
  intro hca
  rcases hcb : cmpL (low c) (low b) with _ | _ | _
  · exact h2 hcb
  · rw [(cmpL_eq_iff _ _).mp hcb] at hca
    exact h1 hca
  · have hbc : cmpL (low b) (low c) = .lt := by
      rw [cmpL_swap (low c) (low b), hcb]
      rfl
    exact h1 (cmpL_lt_trans _ _ _ hbc hca)

theorem compare_nocase_total {a b : String} (h : low a ≠ low b) :
    compare_nocase a b = true ∨ compare_nocase b a = true := by
  rcases hab : cmpL (low a) (low b) with _ | _ | _
  · left
    rw [compare_nocase_iff]
    exact hab
  · exact absurd ((cmpL_eq_iff _ _).mp hab) h
  · right
    rw [compare_nocase_iff, cmpL_swap (low a) (low b), hab]
    rfl

theorem mem_insSorted {α : Type} (x y : String × α) :
    ∀ (l : List (String × α)), y ∈ insSorted x l ↔ y = x ∨ y ∈ l
  | [] => by simp [insSorted]
  | z :: l => by
    cases h : compare_nocase z.1 x.1 <;>
      simp [insSorted, h, mem_insSorted x y l] <;> tauto

theorem insSorted_perm {α : Type} (x : String × α) :
    ∀ (l : List (String × α)), (insSorted x l).Perm (x :: l)
  | [] => List.Perm.refl _
  | z :: l => by
    cases h : compare_nocase z.1 x.1
    · simp [insSorted, h]
    · simp only [insSorted, h, if_true]
      exact ((insSorted_perm x l).cons z).trans (List.Perm.swap x z l)

theorem sortByPath_perm {α : Type} : ∀ (l : List (String × α)), (sortByPath l).Perm l
  | [] => List.Perm.refl _
  | x :: l => by
    simp only [sortByPath, List.foldr_cons]
    exact (insSorted_perm x _).trans ((sortByPath_perm l).cons x)

theorem pairwise_insSorted {α : Type} (x : String × α) :
    ∀ (l : List (String × α)),
      l.Pairwise (fun p q => compare_nocase q.1 p.1 = false) →
      (insSorted x l).Pairwise (fun p q => compare_nocase q.1 p.1 = false)
  | [], _ => by simp [insSorted]
  | z :: l, h => by
    rw [List.pairwise_cons] at h
    obtain ⟨hz, hl⟩ := h
    cases hc : compare_nocase z.1 x.1
    · simp only [insSorted, hc, Bool.false_eq_true, if_false]
      rw [List.pairwise_cons]
      refine ⟨?_, ?_⟩
      · intro y hy
        rcases List.mem_cons.mp hy with rfl | hy
        · exact hc
        · exact compare_nocase_ge_trans hc (hz y hy)
      · rw [List.pairwise_cons]
        exact ⟨hz, hl⟩
    · simp only [insSorted, hc, if_true]
      rw [List.pairwise_cons]
      refine ⟨?_, pairwise_insSorted x l hl⟩
      intro y hy
      rcases (mem_insSorted x y l).mp hy with rfl | hy
      · exact compare_nocase_asymm hc
      · exact hz y hy

theorem sortByPath_pairwise {α : Type} :
    ∀ (l : List (String × α)),
      (sortByPath l).Pairwise (fun p q => compare_nocase q.1 p.1 = false)
  | [] => by simp [sortByPath]
  | x :: l => by
    simp only [sortByPath, List.foldr_cons]
    exact pairwise_insSorted x _ (sortByPath_pairwise l)

theorem insSorted_comm_aux {α : Type} (a x : String × α)
    (hxa : compare_nocase x.1 a.1 = true) :
    ∀ (m : List (String × α)), insSorted a (insSorted x m) = insSorted x (insSorted a m)
  | [] => by
    have hax : compare_nocase a.1 x.1 = false := compare_nocase_asymm hxa
    simp [insSorted, hxa, hax]
  | y :: m => by
    have hax : compare_nocase a.1 x.1 = false := compare_nocase_asymm hxa
    cases hyx : compare_nocase y.1 x.1
    · cases hya : compare_nocase y.1 a.1
      · simp [insSorted, hyx, hya, hax, hxa]
      · simp [insSorted, hyx, hya, hax, hxa]
    · have hya : compare_nocase y.1 a.1 = true := compare_nocase_trans hyx hxa
      simp only [insSorted, hyx, hya, if_true]
      rw [insSorted_comm_aux a x hxa m]

theorem insSorted_comm {α : Type} (a x : String × α) (h : low a.1 ≠ low x.1)
    (m : List (String × α)) : insSorted a (insSorted x m) = insSorted x (insSorted a m) := by
  rcases compare_nocase_total h with hc | hc
  · exact (insSorted_comm_aux x a hc m).symm
  · exact insSorted_comm_aux a x hc m

theorem sortByPath_middle {α : Type} (x : String × α) :
    ∀ (l₁ l₂ : List (String × α)), (∀ y ∈ l₁, low y.1 ≠ low x.1) →
      sortByPath (l₁ ++ x :: l₂) = insSorted x (sortByPath (l₁ ++ l₂))
  | [], l₂, _ => rfl
  | a :: l₁, l₂, h => by
    simp only [List.cons_append, sortByPath, List.foldr_cons]
    have ih := sortByPath_middle x l₁ l₂ (fun y hy => h y (List.mem_cons_of_mem a hy))
    simp only [sortByPath] at ih
    rw [ih]
    exact insSorted_comm a x (h a (List.mem_cons_self a l₁)) _

theorem insSorted_split {α : Type} (x : String × α) :
    ∀ (l : List (String × α)), ∃ u v, insSorted x l = u ++ x :: v ∧ l = u ++ v
  | [] => ⟨[], [], rfl, rfl⟩
  | y :: l => by
    cases h : compare_nocase y.1 x.1
    · exact ⟨[], y :: l, by simp [insSorted, h], rfl⟩
    · obtain ⟨u, v, h1, h2⟩ := insSorted_split x l
      exact ⟨y :: u, v, by simp [insSorted, h, h1], by simp [h2]⟩

theorem insSorted_map {α β : Type} (g : α → β) (x : String × α) :
    ∀ (l : List (String × α)),
      insSorted (x.1, g x.2) (l.map (fun pc => (pc.1, g pc.2))) =
        (insSorted x l).map (fun pc => (pc.1, g pc.2))
  | [] => rfl
  | y :: l => by
    cases h : compare_nocase y.1 x.1 <;>
      simp [insSorted, h, insSorted_map g x l]

theorem sortByPath_map {α β : Type} (g : α → β) :
    ∀ (l : List (String × α)),
      sortByPath (l.map (fun pc => (pc.1, g pc.2))) =
        (sortByPath l).map (fun pc => (pc.1, g pc.2))
  | [] => rfl
  | x :: l => by
    simp only [List.map_cons, sortByPath, List.foldr_cons]
    have ih := sortByPath_map g l
    simp only [sortByPath] at ih
    rw [ih]
    exact insSorted_map g x _

theorem foldResults_allOk : ∀ (m : List (String × List Nat)),
    foldResults (m.map (fun pc => (pc.1, (pc.2, 0)))) = ((m.map (fun pc => pc.2)).flatten, 0)
  | [] => rfl
  | (p, u) :: m => by
    simp [foldResults, foldResults_allOk m]

theorem foldResults_skip (p : String) :
    ∀ (a b : List (String × (List Nat × Nat))),
      foldResults (a ++ (p, ([], 0)) :: b) = foldResults (a ++ b)
  | [], b => by simp [foldResults]
  | (q, (u, e)) :: a, b => by
    by_cases he : e = 0 <;>
      simp [foldResults, he, foldResults_skip p a b]

theorem foldResults_failfast :
    ∀ (l₁ : List (String × (List Nat × Nat))) (x : String × (List Nat × Nat))
      (l₂ : List (String × (List Nat × Nat))),
      (∀ r ∈ l₁, r.2.2 = 0) → x.2.2 ≠ 0 →
      foldResults (l₁ ++ x :: l₂) = ((l₁.map (fun r => r.2.1)).flatten ++ x.2.1, x.2.2)
  | [], x, l₂, _, hx => by
    rcases x with ⟨p, u, e⟩
    simp only [List.nil_append, foldResults, List.map_nil, List.flatten_nil]
    simp at hx
    simp [hx]
  | (q, (u, e)) :: l₁, x, l₂, h, hx => by
    have he : e = 0 := h (q, (u, e)) (List.mem_cons_self _ _)
    have ih := foldResults_failfast l₁ x l₂ (fun r hr => h r (List.mem_cons_of_mem _ hr)) hx
    simp [foldResults, he, ih, List.append_assoc]

-- -----------------------------------------------------------------
-- Behaviour of the engine guard and helpers
-- -----------------------------------------------------------------

theorem pathExcluded_nil {cfg : Config} (h : cfg.excludeSpecList = []) (path : String) :
    pathExcluded cfg path = false := by
  simp [pathExcluded, h, IsExcludedName]

theorem pathExcluded_true {cfg : Config} {path : String}
    (hlen : path.length ≤ MAX_PATH)
    (hm : IsExcludedName path cfg.excludeSpecList = true) :
    pathExcluded cfg path = true := by
  rcases hsp : cfg.excludeSpecList with _ | ⟨s, ss⟩
  · rw [hsp] at hm
    simp [IsExcludedName] at hm
  · rw [hsp] at hm
    simp [pathExcluded, hsp, hlen, hm]

theorem pathExcluded_not_matching {cfg : Config} {path : String}
    (hm : IsExcludedName path cfg.excludeSpecList = false) :
    pathExcluded cfg path = false := by
  simp [pathExcluded, hm]

theorem stripTrail_length_le (s : String) : (stripTrail s).length ≤ s.length := by
  rw [stripTrail]
  rcases h : s.data.getLast? with _ | c
  · exact Nat.le_refl _
  · by_cases hc : c = '\\' ∨ c = '/'
    · show (if c = '\\' ∨ c = '/' then String.mk s.data.dropLast else s).length ≤ s.length
      rw [if_pos hc]
      have h1 : (String.mk s.data.dropLast).length = s.data.dropLast.length := rfl
      have h2 : s.length = s.data.length := rfl
      have h3 := s.data.length_dropLast
      omega
    · show (if c = '\\' ∨ c = '/' then String.mk s.data.dropLast else s).length ≤ s.length
      rw [if_neg hc]

theorem hashPath_excluded {cfg : Config} {path : String}
    (h : pathExcluded cfg path = true) (node : FsNode) :
    hashPath cfg path node = ([], 0) := by
  cases node
  · rw [hashPath_file, if_pos h]
  · rw [hashPath_badFile, if_pos h]
  · rw [hashPath_dir, if_pos h]
  · rw [hashPath_badDir, if_pos h]

theorem hashPath_dir_drop (cfg : Config) (path : String) (x : String × FsNode)
    (c₁ c₂ : List (String × FsNode))
    (hskip : hashPath cfg (joinPath path x.1) x.2 = ([], 0))
    (hkeep : keepEntry x = true)
    (hdist : ∀ y ∈ c₁, low (joinPath path y.1) ≠ low (joinPath path x.1)) :
    hashPath cfg path (.dir (c₁ ++ x :: c₂)) = hashPath cfg path (.dir (c₁ ++ c₂)) := by
  rw [hashPath_dir, hashPath_dir]
  by_cases hex : pathExcluded cfg path = true
  · rw [if_pos hex, if_pos hex]
  · rw [if_neg hex, if_neg hex]
    have hitems : dirItems cfg path (c₁ ++ x :: c₂) =
        dirItems cfg path c₁ ++ (joinPath path x.1, ([], 0)) :: dirItems cfg path c₂ := by
      rw [dirItems, dirItems, dirItems, List.filter_append,
        List.filter_cons_of_pos hkeep, List.map_append, List.map_cons, hskip]
    have hitems2 : dirItems cfg path (c₁ ++ c₂) =
        dirItems cfg path c₁ ++ dirItems cfg path c₂ := by
      rw [dirItems, dirItems, dirItems, List.filter_append, List.map_append]
    have hdist' : ∀ y ∈ dirItems cfg path c₁,
        low y.1 ≠ low ((joinPath path x.1, (([] : List Nat), (0 : Nat))).1) := by
      intro y hy
      rw [dirItems] at hy
      obtain ⟨z, hz, rfl⟩ := List.mem_map.mp hy
      exact hdist z (List.mem_of_mem_filter hz)
    have hmid := sortByPath_middle (joinPath path x.1, (([] : List Nat), (0 : Nat)))
      (dirItems cfg path c₁) (dirItems cfg path c₂) hdist'
    obtain ⟨u, v, hins, huv⟩ := insSorted_split
      (joinPath path x.1, (([] : List Nat), (0 : Nat)))
      (sortByPath (dirItems cfg path c₁ ++ dirItems cfg path c₂))
    rw [hitems, hmid, hins, foldResults_skip, ← huv, hitems2]

-- -----------------------------------------------------------------
-- The engine on well-formed trees without name folding
-- -----------------------------------------------------------------

theorem keepEntry_of_wf {p : String × FsNode} (h1 : p.1 ≠ ".") (h2 : p.1 ≠ "..") :
    keepEntry p = true := by
  rcases p with ⟨n, node⟩
  simp only [keepEntry]
  cases hd : isDirNode node
  · simp
  · simp at h1 h2 ⊢
    exact ⟨h1, h2⟩

theorem hashPath_wf_noNames (cfg : Config) (hnames : cfg.includeNames = false)
    (hexcl : cfg.excludeSpecList = []) :
    ∀ (t : FsNode), WfTree t → ∀ (path : String),
      hashPath cfg path t = (specFilesConcat path t, 0) := by
  intro t hwf
  induction hwf with
  | file content =>
    intro path
    simp [hashPath_file, pathExcluded_nil hexcl, hnames, specFilesConcat]
  | dir children hn hch ih =>
    intro path
    rw [hashPath_dir, specFilesConcat_dir]
    simp only [pathExcluded_nil hexcl, Bool.false_eq_true, if_false, hnames]
    have hfilter : children.filter keepEntry = children := by
      rw [List.filter_eq_self]
      intro p hp
      exact keepEntry_of_wf (hn p hp).1 (hn p hp).2
    have hmap : dirItems cfg path children =
        (children.map (fun nc =>
          (joinPath path nc.1, specFilesConcat (joinPath path nc.1) nc.2))).map
          (fun pc => (pc.1, (pc.2, (0 : Nat)))) := by
      rw [dirItems, hfilter, List.map_map]
      apply List.map_congr_left
      intro nc hnc
      simp [ih nc hnc (joinPath path nc.1)]
    rw [hmap]
    rw [sortByPath_map (fun s : List Nat => (s, (0 : Nat)))]
    rw [foldResults_allOk]
    simp

-- -----------------------------------------------------------------
-- Claims
-- -----------------------------------------------------------------

/-- C1 counterexample: the claim predicts exclusion decisions from the
entry's base name, but IsExcludedName receives the full path. For pattern
set [sub] and entry \t\sub the base name sub matches the pattern, yet the
program does not exclude the entry. -/
theorem C1_counterexample :
    ¬ (IsExcludedName "\\t\\sub" ["sub"] =
        (["sub"].any (fun spec => PathMatchSpec (pathFindFileName "\\t\\sub") spec))) := by
  have h1 : low "sub" = [115, 117, 98] := by decide
  have h2 : low "\\t\\sub" = [92, 116, 92, 115, 117, 98] := by decide
  have h3 : pathFindFileName "\\t\\sub" = "sub" := by decide
  simp only [IsExcludedName, PathMatchSpec, h3, List.any_cons, List.any_nil, h1, h2]
  simp [glob]

/-- C1 amended: for a file entry whose path fits in MAX_PATH and a
non-empty pattern set, the entry is skipped (contributes nothing and
returns success) iff at least one glob pattern matches the entry's FULL
path string, not its base name. -/
theorem C1_full_path_exclusion (cfg : Config) (path : String) (content : List Nat)
    (hne : cfg.excludeSpecList ≠ []) (hlen : path.length ≤ MAX_PATH)
    (hnames : cfg.includeNames = false) (hcontent : content ≠ []) :
    hashPath cfg path (.file content) = ([], 0) ↔
      cfg.excludeSpecList.any (fun spec => PathMatchSpec path spec) = true := by
  rw [hashPath_file]
  have hie : IsExcludedName path cfg.excludeSpecList =
      cfg.excludeSpecList.any (fun spec => PathMatchSpec path spec) := rfl
  cases hm : cfg.excludeSpecList.any (fun spec => PathMatchSpec path spec)
  · have hpe : pathExcluded cfg path = false :=
      pathExcluded_not_matching (hie.trans hm)
    rw [if_neg (by simp [hpe])]
    simp [hnames, hcontent]
  · have hpe : pathExcluded cfg path = true := pathExcluded_true hlen (hie.trans hm)
    rw [if_pos hpe]
    simp

theorem C1_full_path_exclusion_witness :
    (["*.tmp"] : List String) ≠ [] ∧ ("r\\notes.tmp").length ≤ MAX_PATH ∧
      ([7] : List Nat) ≠ [] ∧
      (hashPath ⟨false, ["*.tmp"], fun p => some p⟩ "r\\notes.tmp" (.file [7]) = ([], 0) ↔
        (["*.tmp"].any (fun spec => PathMatchSpec "r\\notes.tmp" spec)) = true) :=
  ⟨by decide, by decide, by decide,
    C1_full_path_exclusion ⟨false, ["*.tmp"], fun p => some p⟩ "r\\notes.tmp" [7]
      (by decide) (by decide) rfl (by decide)⟩

/-- C2: after filtering, the children of a directory are visited in
case-insensitive lexicographic order of their full path strings (the
visit list is sorted by compare_nocase and is a permutation of the
filtered children); in particular a directory holding exactly B.txt and
a.txt is visited a.txt first, B.txt second, regardless of the filesystem
enumeration order. -/
theorem C2_sorted_traversal :
    (∀ (l : List (String × FsNode)),
        (sortByPath l).Pairwise (fun p q => compare_nocase q.1 p.1 = false) ∧
          (sortByPath l).Perm l) ∧
      hashPath cfgPlain "r" (.dir [("B.txt", .file [1]), ("a.txt", .file [2])]) = ([2, 1], 0) ∧
      hashPath cfgPlain "r" (.dir [("a.txt", .file [2]), ("B.txt", .file [1])]) = ([2, 1], 0) := by
  refine ⟨fun l => ⟨sortByPath_pairwise l, sortByPath_perm l⟩, ?_, ?_⟩ <;>
  · rw [hashPath_dir]
    simp [dirItems, hashPath_file, cfgPlain, pathExcluded, IsExcludedName, keepEntry,
      isDirNode, List.filter]
    decide

/-- C4: the first error aborts the run: in the visiting loop all siblings
after the first failing entry are skipped and the failing entry's error is
returned; a directory returns its children's loop error unchanged; and no
digest is finalized from a run with a non-zero error. -/
theorem C4_first_error_aborts (cfg : Config) (H : List Nat → List Nat) (path : String)
    (children : List (String × FsNode))
    (l₁ : List (String × (List Nat × Nat))) (x : String × (List Nat × Nat))
    (l₂ : List (String × (List Nat × Nat)))
    (h1 : ∀ r ∈ l₁, r.2.2 = 0) (h2 : x.2.2 ≠ 0)
    (hg : pathExcluded cfg path = false) :
    foldResults (l₁ ++ x :: l₂) = ((l₁.map (fun r => r.2.1)).flatten ++ x.2.1, x.2.2) ∧
      (hashPath cfg path (.dir children)).2 =
        (foldResults (sortByPath (dirItems cfg path children))).2 ∧
      (∀ r : List Nat × Nat, r.2 ≠ 0 → digestOf H r = none) := by
  refine ⟨foldResults_failfast l₁ x l₂ h1 h2, ?_, ?_⟩
  · rw [hashPath_dir, if_neg (by simp [hg])]
  · intro r hr
    simp [digestOf, hr]

theorem C4_first_error_aborts_witness :
    (∀ r ∈ [("r\\a", (([1] : List Nat), (0 : Nat)))], r.2.2 = 0) ∧
      (("r\\b", (([9] : List Nat), FILE_OPEN_ERROR)) : String × (List Nat × Nat)).2.2 ≠ 0 ∧
      pathExcluded cfgPlain "r" = false ∧
      (foldResults ([("r\\a", ([1], 0))] ++
          ("r\\b", ([9], FILE_OPEN_ERROR)) :: [("r\\c", ([2], 0))]) =
        (([("r\\a", (([1] : List Nat), (0 : Nat)))].map (fun r => r.2.1)).flatten ++ [9],
          FILE_OPEN_ERROR) ∧
        (hashPath cfgPlain "r" (.dir [])).2 =
          (foldResults (sortByPath (dirItems cfgPlain "r" []))).2 ∧
        (∀ r : List Nat × Nat, r.2 ≠ 0 → digestOf (fun s => s) r = none)) :=
  ⟨by decide, by decide, by decide,
    C4_first_error_aborts cfgPlain (fun s => s) "r" []
      [("r\\a", ([1], 0))] ("r\\b", ([9], FILE_OPEN_ERROR)) [("r\\c", ([2], 0))]
      (by decide) (by decide) (by decide)⟩

/-- C5: an entry whose full path (fitting in MAX_PATH) matches an
exclusion pattern contributes nothing to the digest: the entry - file or
whole directory subtree - is skipped with success returned, and the
directory stream equals the stream of the same directory with the entry
physically absent. -/
theorem C5_excluded_entry_inert (cfg : Config) (path name : String) (node : FsNode)
    (c₁ c₂ : List (String × FsNode))
    (hlen : (joinPath path name).length ≤ MAX_PATH)
    (hmatch : IsExcludedName (joinPath path name) cfg.excludeSpecList = true)
    (hkeep : keepEntry (name, node) = true)
    (hdist : ∀ y ∈ c₁, low (joinPath path y.1) ≠ low (joinPath path name)) :
    hashPath cfg (joinPath path name) node = ([], 0) ∧
      hashPath cfg path (.dir (c₁ ++ (name, node) :: c₂)) =
        hashPath cfg path (.dir (c₁ ++ c₂)) := by
  have hskip : hashPath cfg (joinPath path name) node = ([], 0) :=
    hashPath_excluded (pathExcluded_true hlen hmatch) node
  exact ⟨hskip, hashPath_dir_drop cfg path (name, node) c₁ c₂ hskip hkeep hdist⟩

theorem C5_excluded_entry_inert_witness :
    (joinPath "r" "notes.tmp").length ≤ MAX_PATH ∧
      IsExcludedName (joinPath "r" "notes.tmp") ["*.tmp"] = true ∧
      keepEntry ("notes.tmp", .file [7]) = true ∧
      (∀ y ∈ [("a.txt", FsNode.file [1])],
        low (joinPath "r" y.1) ≠ low (joinPath "r" "notes.tmp")) ∧
      (hashPath ⟨false, ["*.tmp"], fun p => some p⟩ (joinPath "r" "notes.tmp")
          (.file [7]) = ([], 0) ∧
        hashPath ⟨false, ["*.tmp"], fun p => some p⟩ "r"
            (.dir ([("a.txt", FsNode.file [1])] ++ ("notes.tmp", FsNode.file [7]) :: [])) =
          hashPath ⟨false, ["*.tmp"], fun p => some p⟩ "r"
            (.dir ([("a.txt", FsNode.file [1])] ++ []))) := by
  have hj : joinPath "r" "notes.tmp" = "r\\notes.tmp" := by decide
  have hm : IsExcludedName (joinPath "r" "notes.tmp") ["*.tmp"] = true := by
    rw [hj]
    have hl1 : low "*.tmp" = [42, 46, 116, 109, 112] := by decide
    have hl2 : low "r\\notes.tmp" = [114, 92, 110, 111, 116, 101, 115, 46, 116, 109, 112] := by
      decide
    simp only [IsExcludedName, PathMatchSpec, List.any_cons, List.any_nil, hl1, hl2]
    simp [glob]
  refine ⟨by decide, hm, by decide, by decide, ?_⟩
  exact C5_excluded_entry_inert ⟨false, ["*.tmp"], fun p => some p⟩ "r" "notes.tmp"
    (.file [7]) [("a.txt", FsNode.file [1])] [] (by decide) hm (by decide) (by decide)

/-- C10: with includeNames off and no pattern matching it, a zero-byte
file feeds nothing to the hash state, and inserting such a file anywhere
among a directory's children (whose folded paths differ from its own, as
sibling names are unique on a real filesystem) leaves the directory's
stream and error unchanged, so the final digest is unchanged. -/
theorem C10_empty_file_invisible (cfg : Config) (path name : String)
    (c₁ c₂ : List (String × FsNode))
    (hnames : cfg.includeNames = false)
    (hnm : IsExcludedName (joinPath path name) cfg.excludeSpecList = false)
    (hdist : ∀ y ∈ c₁, low (joinPath path y.1) ≠ low (joinPath path name)) :
    hashPath cfg (joinPath path name) (.file []) = ([], 0) ∧
      hashPath cfg path (.dir (c₁ ++ (name, .file []) :: c₂)) =
        hashPath cfg path (.dir (c₁ ++ c₂)) := by
  have hskip : hashPath cfg (joinPath path name) (.file []) = ([], 0) := by
    rw [hashPath_file, if_neg (by simp [pathExcluded_not_matching hnm])]
    simp [hnames]
  exact ⟨hskip, hashPath_dir_drop cfg path (name, .file []) c₁ c₂ hskip rfl hdist⟩

theorem C10_empty_file_invisible_witness :
    cfgPlain.includeNames = false ∧
      IsExcludedName (joinPath "r" "e.txt") cfgPlain.excludeSpecList = false ∧
      (∀ y ∈ [("a.txt", FsNode.file [1])],
        low (joinPath "r" y.1) ≠ low (joinPath "r" "e.txt")) ∧
      (hashPath cfgPlain (joinPath "r" "e.txt") (.file []) = ([], 0) ∧
        hashPath cfgPlain "r"
            (.dir ([("a.txt", FsNode.file [1])] ++
              ("e.txt", FsNode.file []) :: [("z.txt", FsNode.file [2])])) =
          hashPath cfgPlain "r"
            (.dir ([("a.txt", FsNode.file [1])] ++ [("z.txt", FsNode.file [2])]))) :=
  ⟨rfl, by decide, by decide,
    C10_empty_file_invisible cfgPlain "r" "e.txt"
      [("a.txt", FsNode.file [1])] [("z.txt", FsNode.file [2])] rfl (by decide) (by decide)⟩

/-- C6: with -hashnames on, the name bytes folded for an entry are the
raw path text when the path exceeds MAX_PATH (in which case the exclusion
check is bypassed entirely: the guard is false no matter what the
patterns are), otherwise the PathCanonicalize output, falling back to the
raw path text unchanged when canonicalization fails; a directory folds
the same bytes ahead of its children's stream. -/
theorem C6_name_folding (cfg : Config) (path : String) (content : List Nat)
    (children : List (String × FsNode)) (q : String)
    (hnames : cfg.includeNames = true) :
    (MAX_PATH < path.length →
        pathExcluded cfg path = false ∧
        hashPath cfg path (.file content) = (strBytes path ++ content, 0)) ∧
      (path.length ≤ MAX_PATH → pathExcluded cfg path = false →
        cfg.canonicalize path = some q →
        hashPath cfg path (.file content) = (strBytes q ++ content, 0)) ∧
      (path.length ≤ MAX_PATH → pathExcluded cfg path = false →
        cfg.canonicalize path = none →
        hashPath cfg path (.file content) = (strBytes path ++ content, 0)) ∧
      (pathExcluded cfg path = false →
        hashPath cfg path (.dir children) =
          (nameFoldBytes cfg path ++
              (foldResults (sortByPath (dirItems cfg path children))).1,
            (foldResults (sortByPath (dirItems cfg path children))).2)) := by
  refine ⟨?_, ?_, ?_, ?_⟩
  · intro hl
    have hnle : ¬ path.length ≤ MAX_PATH := Nat.not_le.mpr hl
    have hpe : pathExcluded cfg path = false := by
      simp [pathExcluded, hnle]
    refine ⟨hpe, ?_⟩
    rw [hashPath_file, if_neg (by simp [hpe])]
    simp [hnames, nameFoldBytes, hl]
  · intro h1 hpe h3
    rw [hashPath_file, if_neg (by simp [hpe])]
    simp [hnames, nameFoldBytes, Nat.not_lt.mpr h1, h3]
  · intro h1 hpe h3
    rw [hashPath_file, if_neg (by simp [hpe])]
    simp [hnames, nameFoldBytes, Nat.not_lt.mpr h1, h3]
  · intro hpe
    rw [hashPath_dir, if_neg (by simp [hpe])]
    simp [hnames]

set_option maxRecDepth 8000 in
theorem C6_name_folding_witness :
    ((⟨true, [], fun p => if p = "p" then some "c" else none⟩ : Config).includeNames = true) ∧
      MAX_PATH < (pathLong 261).length ∧
      (pathExcluded ⟨true, [], fun p => if p = "p" then some "c" else none⟩
          (pathLong 261) = false ∧
        hashPath ⟨true, [], fun p => if p = "p" then some "c" else none⟩ (pathLong 261)
          (.file [3]) = (strBytes (pathLong 261) ++ [3], 0)) ∧
      hashPath ⟨true, [], fun p => if p = "p" then some "c" else none⟩ "p"
        (.file [3]) = (strBytes "c" ++ [3], 0) ∧
      hashPath ⟨true, [], fun p => if p = "p" then some "c" else none⟩ "x"
        (.file [3]) = (strBytes "x" ++ [3], 0) := by
  have hL := C6_name_folding ⟨true, [], fun p => if p = "p" then some "c" else none⟩
    (pathLong 261) [3] [] "c" rfl
  have hp := C6_name_folding ⟨true, [], fun p => if p = "p" then some "c" else none⟩
    "p" [3] [] "c" rfl
  have hx := C6_name_folding ⟨true, [], fun p => if p = "p" then some "c" else none⟩
    "x" [3] [] "c" rfl
  refine ⟨rfl, by decide, hL.1 (by decide), ?_, ?_⟩
  · exact hp.2.1 (by decide) (by decide) (by decide)
  · exact hx.2.2.1 (by decide) (by decide) (by decide)

/-- Helper equation: a readable file's reference concatenation is its
content. -/
theorem specFilesConcat_file (path : String) (content : List Nat) :
    specFilesConcat path (.file content) = content := by
  rw [specFilesConcat]

/-- C3: with includeNames off and an empty exclusion set, on a
failure-free tree the engine returns no error and its update stream is
exactly the concatenation of all file contents in depth-first,
case-insensitive-sorted traversal order, so the finalized digest is the
hash primitive applied to that concatenation (for an empty directory,
the digest of zero input bytes; for the hello/world tree, the digest of
the ten bytes of helloworld). -/
theorem C3_digest_is_file_concat (cfg : Config) (path : String) (t : FsNode)
    (H : List Nat → List Nat)
    (hnames : cfg.includeNames = false) (hexcl : cfg.excludeSpecList = [])
    (hwf : WfTree t) :
    hashPath cfg path t = (specFilesConcat path t, 0) ∧
      digestOf H (hashPath cfg path t) = some (H (specFilesConcat path t)) := by
  have h := hashPath_wf_noNames cfg hnames hexcl t hwf path
  exact ⟨h, by simp [digestOf, h]⟩

theorem C3_digest_is_file_concat_witness :
    cfgPlain.includeNames = false ∧ cfgPlain.excludeSpecList = [] ∧ WfTree treeHW ∧
      (hashPath cfgPlain "\\t" treeHW = (specFilesConcat "\\t" treeHW, 0) ∧
        digestOf (fun s => s) (hashPath cfgPlain "\\t" treeHW) =
          some ((fun s => s) (specFilesConcat "\\t" treeHW))) ∧
      specFilesConcat "\\t" treeHW = [104, 101, 108, 108, 111, 119, 111, 114, 108, 100] ∧
      hashPath cfgPlain "\\t" (.dir []) = (specFilesConcat "\\t" (.dir []), 0) ∧
      specFilesConcat "\\t" (.dir []) = [] := by
  have hwf2 : WfTree (FsNode.dir [("b.txt", FsNode.file [119, 111, 114, 108, 100])]) := by
    apply WfTree.dir
    · intro p hp
      simp at hp
      rcases hp with rfl
      exact ⟨by decide, by decide⟩
    · intro p hp
      simp at hp
      rcases hp with rfl
      exact WfTree.file _
  have hwf : WfTree treeHW := by
    apply WfTree.dir
    · intro p hp
      simp [treeHW] at hp
      rcases hp with rfl | rfl
      · exact ⟨by decide, by decide⟩
      · exact ⟨by decide, by decide⟩
    · intro p hp
      simp [treeHW] at hp
      rcases hp with rfl | rfl
      · exact WfTree.file _
      · exact hwf2
  have hwfe : WfTree (FsNode.dir []) := by
    apply WfTree.dir
    · intro p hp
      simp at hp
    · intro p hp
      simp at hp
  have heval : specFilesConcat "\\t" treeHW =
      [104, 101, 108, 108, 111, 119, 111, 114, 108, 100] := by
    simp [treeHW, specFilesConcat_dir, specFilesConcat_file]
    decide
  have hevale : specFilesConcat "\\t" (.dir []) = [] := by
    rw [specFilesConcat_dir]
    decide
  exact ⟨rfl, rfl, hwf,
    C3_digest_is_file_concat cfgPlain "\\t" treeHW (fun s => s) rfl rfl hwf,
    heval,
    (C3_digest_is_file_concat cfgPlain "\\t" (.dir []) (fun s => s) rfl rfl hwfe).1,
    hevale⟩

-- -----------------------------------------------------------------
-- Driver-level helpers
-- -----------------------------------------------------------------

theorem toInt32_ne_zero {n : Nat} (h1 : n ≠ 0) (h2 : n < 4294967296) : toInt32 n ≠ 0 := by
  unfold toInt32
  rw [Nat.mod_eq_of_lt h2]
  by_cases h : n < 2147483648 <;> simp [h] <;> omega

theorem strLen_append (a b : String) : (a ++ b).length = a.length + b.length := by
  show (a.data ++ b.data).length = a.data.length + b.data.length
  exact List.length_append a.data b.data

theorem hexStr_length_aux : ∀ (l : List Nat) (acc : String),
    (List.foldl (fun acc b => acc ++ hexByte b) acc l).length = acc.length + 2 * l.length
  | [], acc => by simp
  | b :: l, acc => by
    have ih := hexStr_length_aux l (acc ++ hexByte b)
    simp only [List.foldl_cons] at ih ⊢
    rw [ih, strLen_append]
    have hb : (hexByte b).length = 2 := rfl
    rw [hb]
    simp [List.length_cons]
    omega

theorem hexStr_length (l : List Nat) : (hexStr l).length = 2 * l.length := by
  have h := hexStr_length_aux l ""
  simpa [hexStr] using h

theorem hexDigitChar_mem_hexDigits {n : Nat} (h : n < 16) : hexDigitChar n ∈ hexDigits := by
  have hall : ∀ m, m < 16 → hexDigitChar m ∈ hexDigits := by decide
  exact hall n h

theorem hexStr_chars_aux : ∀ (l : List Nat) (acc : String),
    ∀ ch ∈ (List.foldl (fun acc b => acc ++ hexByte b) acc l).data,
      ch ∈ acc.data ∨ ch ∈ hexDigits
  | [], _ => fun _ h => Or.inl h
  | b :: l, acc => by
    intro ch h
    simp only [List.foldl_cons] at h
    rcases hexStr_chars_aux l (acc ++ hexByte b) ch h with h' | h'
    · have hd : (acc ++ hexByte b).data = acc.data ++ (hexByte b).data := rfl
      rw [hd] at h'
      rcases List.mem_append.mp h' with h'' | h''
      · exact Or.inl h''
      · right
        have hb : (hexByte b).data = [hexDigitChar (b / 16 % 16), hexDigitChar (b % 16)] := rfl
        rw [hb] at h''
        simp only [List.mem_cons, List.not_mem_nil, or_false] at h''
        rcases h'' with rfl | rfl
        · exact hexDigitChar_mem_hexDigits (Nat.mod_lt _ (by decide))
        · exact hexDigitChar_mem_hexDigits (Nat.mod_lt _ (by decide))
    · exact Or.inr h'

theorem hexStr_chars (l : List Nat) : ∀ ch ∈ (hexStr l).data, ch ∈ hexDigits := by
  intro ch h
  rcases hexStr_chars_aux l "" ch h with h' | h'
  · simp at h'
  · exact h'

-- -----------------------------------------------------------------
-- Claims about the driver
-- -----------------------------------------------------------------

/-- C7 amended: exit codes are 0 on success, 1 for usage errors, -2 for a
nonexistent input path, and a non-zero value derived from the DWORD error
on traversal or open failures; but -1 (path too long) is returned exactly
when the path length lies strictly between MAX_PATH-3 and MAX_PATH: a
path of length MAX_PATH or more makes the bounded length measurement
fail and report 0, so it bypasses the startup check and falls through to
the existence test instead of being rejected. -/
theorem C7_exit_codes (env : Env) (path : String) (rest : List String) :
    ((tmain env []).exitCode = 1) ∧
      (parseOpts env rest initOpts = none → (tmain env (path :: rest)).exitCode = 1) ∧
      (∀ o, parseOpts env rest initOpts = some o →
        ((257 < path.length → path.length < 260 →
            (tmain env (path :: rest)).exitCode = -1) ∧
          (path.length ≤ 257 → env.fs path = none →
            (tmain env (path :: rest)).exitCode = -2) ∧
          (260 ≤ path.length → env.fs path = none →
            (tmain env (path :: rest)).exitCode = -2) ∧
          (∀ node, env.fs path = some node → path.length ≤ 257 →
            ∀ run : List Nat × Nat,
              run = (if isDirNode node then
                  hashPath ⟨o.includeNames, o.excludeSpecList, env.canonicalize⟩
                    (stripTrail path) node
                else
                  hashPath ⟨o.includeNames, o.excludeSpecList, env.canonicalize⟩ path node) →
              ((run.2 = 0 → (tmain env (path :: rest)).exitCode = 0) ∧
                (run.2 ≠ 0 → run.2 < 4294967296 →
                  (tmain env (path :: rest)).exitCode = toInt32 run.2 ∧
                    (tmain env (path :: rest)).exitCode ≠ 0))))) := by
  refine ⟨rfl, ?_, ?_⟩
  · intro hparse
    simp [tmain, hparse]
  · intro o hparse
    refine ⟨?_, ?_, ?_, ?_⟩
    · intro h1 h2
      have hs : stringCchLength path 260 = path.length := by
        rw [stringCchLength, if_pos]
        exact h2
      simp [tmain, hparse, hs, MAX_PATH, h1]
    · intro h1 h2
      have hs : stringCchLength path 260 = path.length := by
        rw [stringCchLength, if_pos]
        show path.length < 260
        omega
      simp [tmain, hparse, hs, MAX_PATH, h2, Nat.not_lt.mpr h1]
    · intro h1 h2
      have hs : stringCchLength path 260 = 0 := by
        rw [stringCchLength, if_neg]
        show ¬ path.length < 260
        omega
      simp [tmain, hparse, hs, MAX_PATH, h2]
    · intro node hfs hl run hrun
      have hs : stringCchLength path 260 = path.length := by
        rw [stringCchLength, if_pos]
        show path.length < 260
        omega
      constructor
      · intro h0
        simp [tmain, hparse, hs, MAX_PATH, Nat.not_lt.mpr hl, hfs, ← hrun, h0]
      · intro hne hlt
        have hne' : ¬ run.2 = 0 := hne
        constructor
        · simp [tmain, hparse, hs, MAX_PATH, Nat.not_lt.mpr hl, hfs, ← hrun, hne']
        · have ht := toInt32_ne_zero hne hlt
          simp [tmain, hparse, hs, MAX_PATH, Nat.not_lt.mpr hl, hfs, ← hrun, hne', ht]

set_option maxRecDepth 8000 in
/-- C7 counterexample: the claim promises exit status -1 whenever the
input path exceeds the platform limit, rejected before any hashing; but
for a path of 261 letters (longer than MAX_PATH, hence longer than
MAX_PATH-3) the bounded length measurement fails and reports 0, the
startup check passes, and the run reaches the existence test, exiting
with -2 instead of -1. -/
theorem C7_counterexample :
    (tmain envX [pathLong 261]).exitCode = -2 ∧ ((-2 : Int) ≠ -1) := by
  constructor
  · have h1 : parseOpts envX [] initOpts = some initOpts := rfl
    have h2 : stringCchLength (pathLong 261) 260 = 0 := by
      rw [stringCchLength, if_neg]
      show ¬ (pathLong 261).length < 260
      decide
    have h3 : envX.fs (pathLong 261) = none := rfl
    simp [tmain, h1, h2, h3, MAX_PATH]
  · decide

set_option maxRecDepth 8000 in
theorem C7_exit_codes_witness :
    (parseOpts envX [] initOpts = some initOpts) ∧
      ((257 < (pathLong 258).length → (pathLong 258).length < 260 →
          (tmain envX [pathLong 258]).exitCode = -1) ∧
        ((pathLong 4).length ≤ 257 → envX.fs (pathLong 4) = none →
          (tmain envX [pathLong 4]).exitCode = -2)) ∧
      (tmain envX [pathLong 258]).exitCode = -1 ∧
      (tmain envX [pathLong 4]).exitCode = -2 := by
  have hp : parseOpts envX [] initOpts = some initOpts := rfl
  have h258 := ((C7_exit_codes envX (pathLong 258) []).2.2 initOpts hp).1
  have h4 := ((C7_exit_codes envX (pathLong 4) []).2.2 initOpts hp).2.1
  exact ⟨hp, ⟨h258, h4⟩, h258 (by decide) (by decide), h4 (by decide) rfl⟩

/-- C8 amended: on a successful run the standard-output line is
ALGO (N bytes) = HEX newline, but the result-file line is not identical
content: it reads ALGO hash of "name" (N bytes) = HEX newline. The hex
digest is the same in both: two uppercase hex digits per byte, every
character among 0-9 and A-F, total length twice the digest length. -/
theorem C8_output_format (env : Env) (path : String) (rest : List String) (o : Opts)
    (node : FsNode)
    (hparse : parseOpts env rest initOpts = some o)
    (hfs : env.fs path = some node) (hlen : path.length ≤ 257)
    (hrun0 : (if isDirNode node then
        hashPath ⟨o.includeNames, o.excludeSpecList, env.canonicalize⟩ (stripTrail path) node
      else hashPath ⟨o.includeNames, o.excludeSpecList, env.canonicalize⟩ path node).2 = 0) :
    ∀ algo digest, algo = o.algo.getD Algo.SHA1 →
      digest = env.Hmap algo
        (if isDirNode node then
          hashPath ⟨o.includeNames, o.excludeSpecList, env.canonicalize⟩ (stripTrail path) node
        else hashPath ⟨o.includeNames, o.excludeSpecList, env.canonicalize⟩ path node).1 →
      ((tmain env (path :: rest)).stdoutLine =
          some (algo.idStr ++ " (" ++ toString algo.hashSize ++ " bytes) = " ++
            hexStr digest ++ "\n") ∧
        (tmain env (path :: rest)).fileLine =
          (if o.outFile.isSome then
            some (algo.idStr ++ " hash of \"" ++ pathFindFileName path ++ "\" (" ++
              toString algo.hashSize ++ " bytes) = " ++ hexStr digest ++ "\n")
          else none) ∧
        (hexStr digest).length = 2 * digest.length ∧
        (∀ ch ∈ (hexStr digest).data, ch ∈ hexDigits)) := by
  intro algo digest halgo hdigest
  have hs : stringCchLength path 260 = path.length := by
    rw [stringCchLength, if_pos]
    show path.length < 260
    omega
  subst halgo
  subst hdigest
  refine ⟨?_, ?_, hexStr_length _, hexStr_chars _⟩
  · simp [tmain, hparse, hs, MAX_PATH, Nat.not_lt.mpr hlen, hfs, hrun0]
  · simp [tmain, hparse, hs, MAX_PATH, Nat.not_lt.mpr hlen, hfs, hrun0]

/-- C8 counterexample: on a successful run with a result file, the line
appended to the result file is not identical to the standard-output
line: the file line carries the extra text: hash of "name". -/
theorem C8_counterexample :
    (tmain envY ["f", "-t", "out"]).stdoutLine ≠
      (tmain envY ["f", "-t", "out"]).fileLine := by
  have h1 : parseOpts envY ["-t", "out"] initOpts =
      some ⟨some "out", false, false, [], none⟩ := rfl
  have h2 : envY.fs "f" = some (.file []) := rfl
  have h3 : hashPath ⟨false, [], envY.canonicalize⟩ "f" (.file []) = ([], 0) := by
    rw [hashPath_file, if_neg (by simp [pathExcluded_nil (show (⟨false, [], envY.canonicalize⟩ : Config).excludeSpecList = [] from rfl)])]
    decide
  simp [tmain, h1, h2, h3, isDirNode, stringCchLength, MAX_PATH]
  decide

theorem C8_output_format_witness :
    (parseOpts envY ["-t", "out"] initOpts = some ⟨some "out", false, false, [], none⟩) ∧
      envY.fs "f" = some (.file []) ∧ ("f").length ≤ 257 ∧
      (tmain envY ["f", "-t", "out"]).stdoutLine =
        some (Algo.SHA1.idStr ++ " (" ++ toString Algo.SHA1.hashSize ++ " bytes) = " ++
          hexStr (envY.Hmap Algo.SHA1
            (hashPath ⟨false, [], envY.canonicalize⟩ "f" (.file [])).1) ++ "\n") ∧
      (hexStr (envY.Hmap Algo.SHA1
          (hashPath ⟨false, [], envY.canonicalize⟩ "f" (.file [])).1)).length =
        2 * (envY.Hmap Algo.SHA1
          (hashPath ⟨false, [], envY.canonicalize⟩ "f" (.file [])).1).length := by
  have h1 : parseOpts envY ["-t", "out"] initOpts =
      some ⟨some "out", false, false, [], none⟩ := rfl
  have h2 : envY.fs "f" = some (.file []) := rfl
  have h3 : hashPath ⟨false, [], envY.canonicalize⟩ "f" (.file []) = ([], 0) := by
    rw [hashPath_file, if_neg (by simp [pathExcluded_nil (show (⟨false, [], envY.canonicalize⟩ : Config).excludeSpecList = [] from rfl)])]
    decide
  have h := C8_output_format envY "f" ["-t", "out"] ⟨some "out", false, false, [], none⟩
    (.file []) h1 h2 (by decide) (by simp [isDirNode, h3])
    Algo.SHA1 (envY.Hmap Algo.SHA1 (hashPath ⟨false, [], envY.canonicalize⟩ "f" (.file [])).1)
    rfl (by simp [isDirNode])
  exact ⟨h1, h2, by decide, h.1, h.2.2.1⟩

/-- C9: when the root path itself (length within the startup limit)
matches an exclusion pattern, the run is reported as a success: the
traversal returns at once with no hash contribution, the exit status is
0, and the printed digest is the algorithm's digest of the empty update
stream. -/
theorem C9_root_excluded (env : Env) (path : String) (rest : List String) (o : Opts)
    (children : List (String × FsNode))
    (hparse : parseOpts env rest initOpts = some o)
    (hlen : path.length ≤ 257)
    (hfs : env.fs path = some (.dir children))
    (hm : IsExcludedName (stripTrail path) o.excludeSpecList = true) :
    hashPath ⟨o.includeNames, o.excludeSpecList, env.canonicalize⟩ (stripTrail path)
        (.dir children) = ([], 0) ∧
      (tmain env (path :: rest)).exitCode = 0 ∧
      (tmain env (path :: rest)).stdoutLine =
        some ((o.algo.getD Algo.SHA1).idStr ++ " (" ++
          toString (o.algo.getD Algo.SHA1).hashSize ++ " bytes) = " ++
          hexStr (env.Hmap (o.algo.getD Algo.SHA1) []) ++ "\n") := by
  have hslen : (stripTrail path).length ≤ MAX_PATH := by
    have h := stripTrail_length_le path
    show (stripTrail path).length ≤ 260
    omega
  have hrun : hashPath ⟨o.includeNames, o.excludeSpecList, env.canonicalize⟩
      (stripTrail path) (.dir children) = ([], 0) :=
    hashPath_excluded (pathExcluded_true hslen hm) _
  have hs : stringCchLength path 260 = path.length := by
    rw [stringCchLength, if_pos]
    show path.length < 260
    omega
  refine ⟨hrun, ?_, ?_⟩
  · simp [tmain, hparse, hs, MAX_PATH, Nat.not_lt.mpr hlen, hfs, isDirNode, hrun]
  · simp [tmain, hparse, hs, MAX_PATH, Nat.not_lt.mpr hlen, hfs, isDirNode, hrun]

theorem C9_root_excluded_witness :
    (parseOpts envZ ["-exclude", "d"] initOpts = some ⟨none, false, false, ["d"], none⟩) ∧
      ("d").length ≤ 257 ∧
      envZ.fs "d" = some (.dir [("x.txt", .file [1])]) ∧
      IsExcludedName (stripTrail "d") ["d"] = true ∧
      ((tmain envZ ["d", "-exclude", "d"]).exitCode = 0 ∧
        (tmain envZ ["d", "-exclude", "d"]).stdoutLine =
          some (Algo.SHA1.idStr ++ " (" ++ toString Algo.SHA1.hashSize ++ " bytes) = " ++
            hexStr (envZ.Hmap Algo.SHA1 []) ++ "\n")) := by
  have hm : IsExcludedName (stripTrail "d") ["d"] = true := by
    have hst : stripTrail "d" = "d" := by decide
    have hl : low "d" = [100] := by decide
    rw [hst]
    simp only [IsExcludedName, PathMatchSpec, List.any_cons, List.any_nil, hl]
    simp [glob]
  have h := C9_root_excluded envZ "d" ["-exclude", "d"] ⟨none, false, false, ["d"], none⟩
    [("x.txt", .file [1])] rfl (by decide) rfl hm
  exact ⟨rfl, by decide, rfl, hm, h.2.1, h.2.2⟩
